import Mathlib

/-!
Shallow embedding of `hummingbird/ml/_executor.py` (the `Executor` class and its
helper `_fix_var_naming`), together with theorems checking the repository's
specification against it.

Modelling conventions:
* Python machine floats are modelled as exact rationals (`ℚ`) tagged with their
  dtype; every concrete value used in the development is exactly representable
  in the corresponding machine format, so no rounding is lost.
* Python exceptions (`AssertionError`, `KeyError`, `IndexError`, `RuntimeError`)
  become an explicit error type threaded through `Except`.
* Runtime type identity (`type(x) is C`) is modelled by the runtime type name a
  value carries; a value built by a proper subclass carries the subclass name.
* `print` calls and `torch.no_grad()` are pure-execution-irrelevant side effects
  and are not modelled.
* `get_device`, `from_strings_to_ints`, `constants.*` and the attribute
  `check_dataframe_to_array` live outside this module; they are modelled from
  the spec (marked in their doc comments).
-/

namespace Hummingbird

/-- Decidable equality of `Except` results, used to evaluate the embedded
functions on concrete inputs. -/
instance {ε α : Type} [DecidableEq ε] [DecidableEq α] : DecidableEq (Except ε α) := fun a b =>
  match a, b with
  | .ok x, .ok y => if h : x = y then .isTrue (by rw [h]) else .isFalse (by simp [h])
  | .error x, .error y => if h : x = y then .isTrue (by rw [h]) else .isFalse (by simp [h])
  | .ok _, .error _ => .isFalse (by simp)
  | .error _, .ok _ => .isFalse (by simp)

/-- A variable of the topology: caller-facing raw name and internally unique
full (canonical) name, as consumed by `_fix_var_naming`. -/
structure TopoVariable where
  raw_name : String
  full_name : String
deriving DecidableEq

/-- An operator node of the topology as seen at construction time:
its canonical identity plus input/output variable descriptors. -/
structure TopoOperator where
  full_name : String
  inputs : List TopoVariable
  outputs : List TopoVariable
deriving DecidableEq

/-- Association-list lookup, modelling Python dict read `m[k]` / `k in m`. -/
def assocFind? {α : Type} (m : List (String × α)) (k : String) : Option α :=
  (m.find? (fun p => p.1 == k)).map (·.2)

/-- The raw→full name map built by `_fix_var_naming`; Python dict with
insertion-ordered, duplicate-free keys (entries are only added when absent). -/
abbrev NameMap := List (String × String)

/-- Lookup in the raw→full map. -/
def lookupName (m : NameMap) (k : String) : Option String := assocFind? m k

/-- The side of an operator scanned by `_fix_var_naming`:
`iter = op.inputs if mod == "input" else op.outputs`. -/
def selOf (mod : String) (op : TopoOperator) : List TopoVariable :=
  if mod = "input" then op.inputs else op.outputs

/-- Inner loops of `_fix_var_naming`: for each variable of one operator, record
`raw_name → full_name` when the raw name is declared and not yet mapped
(`if i.raw_name == name and name not in map`). -/
def scanVars (names : List String) (vs : List TopoVariable) (m : NameMap) : NameMap :=
  vs.foldl
    (fun m v =>
      if names.contains v.raw_name && (lookupName m v.raw_name).isNone then
        m ++ [(v.raw_name, v.full_name)]
      else m)
    m

/-- Outer loop of `_fix_var_naming`: scan the operators, stopping early once
`len(map) == len(names)`. -/
def buildMapAux (mod : String) (names : List String) :
    List TopoOperator → NameMap → NameMap
  | [], m => m
  | op :: rest, m =>
    let m' := scanVars names (selOf mod op) m
    if m'.length = names.length then m' else buildMapAux mod names rest m'

/-- Final loop of `_fix_var_naming`: `for name in names: new_names.append(map[name])`.
A missing key raises `KeyError(name)` at the first unresolved name. -/
def resolveNames (m : NameMap) : List String → Except String (List String)
  | [] => Except.ok []
  | n :: rest =>
    match lookupName m n with
    | some f => (resolveNames m rest).map (fun fs => f :: fs)
    | none => Except.error n

/-- Model of `_fix_var_naming(operators, names, mod)`: build the raw→full map; if it is
empty fall back to the declared names, otherwise resolve each declared name
(raising `KeyError` on a miss). -/
def fix_var_naming (operators : List TopoOperator) (names : List String) (mod : String) :
    Except String (List String) :=
  let m := buildMapAux mod names operators []
  if m.isEmpty then Except.ok names else resolveNames m names

/-! ### Data values -/

/-- numpy dtypes appearing in the executor's input protocol. -/
inductive NpDType
  | float64 | float32 | int64 | int32 | datetime64ns | strU | boolb
deriving DecidableEq

/-- The `dtype.kind` of numpy: floats `f`, integers `i`, datetimes `M`,
unicode strings `U`, booleans `b`. -/
def NpDType.kind : NpDType → String
  | .float64 | .float32 => "f"
  | .int64 | .int32 => "i"
  | .datetime64ns => "M"
  | .strU => "U"
  | .boolb => "b"

/-- Modelled from the spec: `constants.SUPPORTED_STRING_TYPES` lives in
`hummingbird.ml.operator_converters.constants`, outside this module; the spec
classifies text/string-kind arrays, i.e. numpy kinds `U` and `S`. -/
def SUPPORTED_STRING_TYPES : List String := ["U", "S"]

/-- Payload of a numpy array: numeric entries (exact rationals; for a
datetime64 array these are the nanoseconds since the epoch) or strings. -/
inductive NpData
  | nums (qs : List ℚ)
  | strs (ss : List String)
deriving DecidableEq

/-- Map a function over numeric payload, leaving string payload unchanged. -/
def NpData.mapNums (f : ℚ → ℚ) : NpData → NpData
  | .nums qs => .nums (qs.map f)
  | .strs ss => .strs ss

/-- Numeric payload, defaulting to empty for (unreachable) string payload. -/
def NpData.numsD : NpData → List ℚ
  | .nums qs => qs
  | .strs _ => []

/-- A numpy ndarray: dtype, shape and flat row-major payload. -/
structure NpArray where
  dtype : NpDType
  shape : List Nat
  data : NpData
deriving DecidableEq

/-- torch dtypes appearing in the executor. -/
inductive TDType
  | tfloat64 | tfloat32 | tint64 | tint32 | tbool
deriving DecidableEq

/-- The torch dtype produced by `torch.from_numpy` for each numpy dtype.
The `datetime64ns` and `strU` rows are unreachable in `forward`: datetime
arrays are converted to float seconds and string arrays to int32 codes
before `torch.from_numpy` is applied. -/
def torchDTypeOf : NpDType → TDType
  | .float64 => .tfloat64
  | .float32 => .tfloat32
  | .int64 => .tint64
  | .int32 => .tint32
  | .boolb => .tbool
  | .datetime64ns => .tint64
  | .strU => .tint32

/-- A compute device, identified by its `type` string (`"cpu"`, `"cuda"`, ...). -/
structure Device where
  type : String
deriving DecidableEq

/-- A torch tensor: dtype, shape, flat row-major payload, device. -/
structure Tensor where
  dtype : TDType
  shape : List Nat
  data : List ℚ
  device : String
deriving DecidableEq

/-- Model of `input_.float()`: downcast to single precision. Values are modelled
exactly; every concrete value used here is exactly representable in float32. -/
def Tensor.float (t : Tensor) : Tensor := { t with dtype := .tfloat32 }

/-- Model of `input_.to(device)`: move the tensor to the given device. -/
def Tensor.to (t : Tensor) (d : Device) : Tensor := { t with device := d.type }

/-- Model of `torch.from_numpy`: shares payload and shape, maps the dtype, lands on cpu. -/
def torch_from_numpy (arr : NpArray) : Tensor :=
  { dtype := torchDTypeOf arr.dtype, shape := arr.shape, data := arr.data.numsD,
    device := "cpu" }

/-- A Python scalar inside a list passed to `forward`. -/
inductive PyScalar
  | pint (n : ℤ)
  | pfloat (q : ℚ)
  | pstr (s : String)
deriving DecidableEq

/-- String rendering used when numpy promotes a mixed list to a string array. -/
def PyScalar.asString : PyScalar → String
  | .pint n => toString n
  | .pfloat q => toString q
  | .pstr s => s

/-- Numeric rendering of a scalar (strings never reach this in `np.array`). -/
def PyScalar.asNum : PyScalar → ℚ
  | .pint n => (n : ℚ)
  | .pfloat q => q
  | .pstr _ => 0

/-- Model of `np.array(input_)` on a flat Python list, with numpy's dtype inference:
any string makes a string array, otherwise any float makes float64,
otherwise int64; the empty list gives float64. -/
def np_array (elems : List PyScalar) : NpArray :=
  if elems.isEmpty then
    { dtype := .float64, shape := [0], data := .nums [] }
  else if elems.any (fun s => match s with | .pstr _ => true | _ => false) then
    { dtype := .strU, shape := [elems.length], data := .strs (elems.map PyScalar.asString) }
  else if elems.any (fun s => match s with | .pfloat _ => true | _ => false) then
    { dtype := .float64, shape := [elems.length], data := .nums (elems.map PyScalar.asNum) }
  else
    { dtype := .int64, shape := [elems.length], data := .nums (elems.map PyScalar.asNum) }

/-- One column of a pandas DataFrame: name, dtype and payload. The embedding
keeps only the minimal column-splitting contract the executor relies on. -/
structure DFColumn where
  name : String
  dtype : NpDType
  data : NpData
deriving DecidableEq

/-- A Python value handed to `forward`. Each constructor carries the runtime
type name of the value (`type(x).__qualname__`-style); a value built by a
proper subclass carries the subclass's name, never the base class's name, so
`type(x) is C` is exactly a name comparison. A constructor's type name can
only be the matching class or a subclass of it. -/
inductive PyVal
  | pylist (ty : String) (elems : List PyScalar)
  | ndarray (ty : String) (arr : NpArray)
  | tensor (ty : String) (t : Tensor)
  | dataframe (ty : String) (cols : List DFColumn)
  | pytuple (elems : List PyScalar)
  | other (ty : String)
deriving DecidableEq

/-- The runtime type name of a value, as formatted into error messages. -/
def pyTypeName : PyVal → String
  | .pylist ty _ => ty
  | .ndarray ty _ => ty
  | .tensor ty _ => ty
  | .dataframe ty _ => ty
  | .pytuple _ => "tuple"
  | .other ty => ty

/-- A value bound in the symbol table: a tensor, or an ordered sequence of
tensors as returned by a multi-output operator transform. -/
inductive Val
  | tensor (t : Tensor)
  | vtuple (ts : List Tensor)
deriving DecidableEq

instance : Inhabited Val := ⟨Val.vtuple []⟩

/-- The value `forward` returns: the single bound output value, or the ordered
tuple of bound output values. -/
inductive Output
  | single (v : Val)
  | tup (vs : List Val)
deriving DecidableEq

/-- The Python exceptions `forward` and `__init__` can raise. -/
inductive ExecError
  /-- The `AssertionError` whose message formats the expected input name list:
  `"number of inputs or number of columns in the dataframe do not match
  with the expected number of inputs ..."`. -/
  | arityAssert (expected : List String)
  /-- The `AssertionError` from `assert self.max_string_length is not None`. -/
  | maxStringAssert
  /-- The `RuntimeError("Inputer tensor ... of not supported type ...")`,
  naming the offending input and its runtime type. -/
  | unsupportedType (input_name : String) (type_name : String)
  /-- A `KeyError(key)`. -/
  | keyError (key : String)
  /-- An `IndexError` from indexing past the end of a tuple or list. -/
  | indexError
deriving DecidableEq

/-- An executable operator module held in `self._operators`: canonical input
and output names plus the opaque transform. -/
structure Module where
  inputs : List String
  outputs : List String
  transform : List Val → Val

/-- The compiled executor. `_input_names`, `_output_names`, `_operators` and
`max_string_length` are assigned in `__init__`. `check_dataframe_to_array` is
modelled from the spec: the attribute is assigned outside this module, and the
spec's tabular exception (accept a lone DataFrame whose column count matches)
corresponds to it being false. `device` is the placement `get_device` reads. -/
structure Executor where
  _input_names : List String
  _output_names : List String
  _operators : List Module
  max_string_length : Option Nat
  check_dataframe_to_array : Bool
  device : Option Device

/-- Modelled from the spec: `get_device` lives in `hummingbird.ml._utils`,
outside this module; the spec says device placement is a per-executor
configuration value. -/
def get_device (e : Executor) : Option Device := e.device

/-- Modelled from the spec: `from_strings_to_ints` lives in
`hummingbird.ml._utils`, outside this module; the spec says each string is
encoded into a fixed-width integer representation bounded by the configured
maximum text length. Each string becomes `maxLen` int32 character codes,
truncated or zero-padded. -/
def from_strings_to_ints (arr : NpArray) (maxLen : Nat) : NpArray :=
  { dtype := .int32, shape := arr.shape ++ [maxLen],
    data :=
      match arr.data with
      | .strs ss =>
        .nums ((ss.map (fun s =>
          ((s.data.map (fun c => (c.toNat : ℚ))).take maxLen)
            ++ List.replicate (maxLen - s.length) 0)).flatten)
      | .nums qs => .nums qs }

/-- The datetime branch of `forward`:
`(input_ - np.datetime64("1970-01-01T00:00:00.000000000")).astype(np.int64) / 1000000000`.
The epoch literal is 0 nanoseconds, so the subtraction subtracts 0; the
division is Python true division `/` (not floor division `//`), so numpy
produces a float64 array of seconds, fractional part included. -/
def datetime_to_seconds (arr : NpArray) : NpArray :=
  { dtype := .float64, shape := arr.shape,
    data := arr.data.mapNums (fun q => (q - 0) / 1000000000) }

/-- Model of `constants.MAX_STRING_LENGTH`, the key probed in `extra_config`.
Modelled from the spec: the constants module is outside this module. -/
def MAX_STRING_LENGTH : String := "max_string_length"

/-- Model of `Executor.__init__`: resolve input names with a forward scan, output names
with a reverse scan, look each operator's module up by its full name, and read
the optional maximum string length from the configuration. -/
def Executor.init (input_names output_names : List String)
    (operator_map : List (String × Module)) (operators : List TopoOperator)
    (extra_config : List (String × Nat))
    (check_dataframe_to_array : Bool) (device : Option Device) :
    Except ExecError Executor := do
  let in_names ← (fix_var_naming operators input_names "input").mapError ExecError.keyError
  let out_names ← (fix_var_naming operators.reverse output_names "output").mapError ExecError.keyError
  let mods ← operators.mapM (fun op =>
    match assocFind? operator_map op.full_name with
    | some m => Except.ok m
    | none => Except.error (ExecError.keyError op.full_name))
  Except.ok {
    _input_names := in_names
    _output_names := out_names
    _operators := mods
    max_string_length := assocFind? extra_config MAX_STRING_LENGTH
    check_dataframe_to_array := check_dataframe_to_array
    device := device }

/-! ### The forward call -/

/-- The per-call symbol table `variable_map`, a Python dict. -/
abbrev VarMap := List (String × Val)

/-- Dict read. -/
def dget (m : VarMap) (k : String) : Option Val := assocFind? m k

/-- Dict assignment `m[k] = v`: overwrite in place or append. -/
def dinsert (m : VarMap) (k : String) (v : Val) : VarMap :=
  if m.any (fun p => p.1 == k) then
    m.map (fun p => if p.1 == k then (k, v) else p)
  else m ++ [(k, v)]

/-- Look up each name in order; a missing name raises `KeyError` at the first
miss, exactly as the generator `(variable_map[n] for n in names)` does. -/
def lookupEach (m : VarMap) : List String → Except ExecError (List Val)
  | [] => Except.ok []
  | n :: ns =>
    match dget m n with
    | some v => (lookupEach m ns).map (fun vs => v :: vs)
    | none => Except.error (ExecError.keyError n)

/-- Model of `outputs[i]` on an operator's returned value: tuple indexing, or slicing a
tensor along its first dimension; out of range raises `IndexError`. -/
def valIndex (v : Val) (i : Nat) : Option Val :=
  match v with
  | .vtuple ts => (ts.get? i).map Val.tensor
  | .tensor t =>
    match t.shape with
    | [] => none
    | h :: rest =>
      if i < h then
        some (Val.tensor
          { dtype := t.dtype
            shape := rest
            data := (t.data.drop (i * rest.prod)).take rest.prod
            device := t.device })
      else none

/-- Model of `for i, output_name in enumerate(operator.outputs): variable_map[output_name] = outputs[i]`. -/
def bindOutputsIdx (outs : Val) : List String → Nat → VarMap → Except ExecError VarMap
  | [], _, m => Except.ok m
  | o :: rest, i, m =>
    match valIndex outs i with
    | some v => bindOutputsIdx outs rest (i + 1) (dinsert m o v)
    | none => Except.error ExecError.indexError

/-- One iteration of the operator loop: gather the operator's inputs from the
symbol table, invoke the transform, and bind the result — the whole value when
one output is declared, else element-wise by index. -/
def applyOperator (m : VarMap) (op : Module) : Except ExecError VarMap :=
  match lookupEach m op.inputs with
  | Except.error err => Except.error err
  | Except.ok args =>
    let outs := op.transform args
    match op.outputs with
    | [o] => Except.ok (dinsert m o outs)
    | os => bindOutputsIdx outs os 0 m

/-- Model of `for operator in self._operators: ...`, in order. -/
def runOperators (ops : List Module) (m : VarMap) : Except ExecError VarMap :=
  ops.foldlM applyOperator m

/-- Model of `if type(input_) is list: input_ = np.array(input_)`. -/
def listCoerce (v0 : PyVal) : PyVal :=
  match v0 with
  | .pylist ty elems => if ty = "list" then .ndarray "numpy.ndarray" (np_array elems) else v0
  | _ => v0

/-- The string/datetime conversion applied inside the exact-ndarray branch:
string-kind arrays need the configured maximum length (`AssertionError` if
absent) and are encoded to int32; datetime-kind arrays become float64 seconds;
all other kinds pass through. -/
def coerceNdarray (msl : Option Nat) (arr : NpArray) : Except ExecError NpArray :=
  if SUPPORTED_STRING_TYPES.contains arr.dtype.kind then
    match msl with
    | none => Except.error ExecError.maxStringAssert
    | some L => Except.ok (from_strings_to_ints arr L)
  else if arr.dtype.kind = "M" then
    Except.ok (datetime_to_seconds arr)
  else
    Except.ok arr

/-- The runtime-type classification of one (list-coerced) input:
`if type(input_) is np.ndarray: ...; input_ = torch.from_numpy(input_)`
`elif type(input_) is not torch.Tensor: raise RuntimeError(...)`.
Each constructor's runtime type name can only be the matching class or a
proper subclass of it, so the exact-type tests are name comparisons; a value
whose exact type name differs from the base class is a subclass instance and
falls through to the unsupported-type error. -/
def classifyToTensor (msl : Option Nat) (input_name : String) :
    PyVal → Except ExecError Tensor
  | .ndarray ty arr =>
    if ty = "numpy.ndarray" then (coerceNdarray msl arr).map torch_from_numpy
    else Except.error (ExecError.unsupportedType input_name ty)
  | .tensor ty t =>
    if ty = "torch.Tensor" then Except.ok t
    else Except.error (ExecError.unsupportedType input_name ty)
  | .pylist ty _ => Except.error (ExecError.unsupportedType input_name ty)
  | .pytuple _ => Except.error (ExecError.unsupportedType input_name "tuple")
  | .dataframe ty _ => Except.error (ExecError.unsupportedType input_name ty)
  | .other ty => Except.error (ExecError.unsupportedType input_name ty)

/-- The input-normalization body applied to each positional input: coerce an
exact list to an ndarray; classify by runtime type into a tensor; downcast
float64 to single precision; move to a configured non-cpu device. -/
def coerceInput (msl : Option Nat) (dev : Option Device) (input_name : String)
    (v0 : PyVal) : Except ExecError Tensor :=
  match classifyToTensor msl input_name (listCoerce v0) with
  | Except.error err => Except.error err
  | Except.ok t =>
    let t := if t.dtype = TDType.tfloat64 then t.float else t
    let t :=
      match dev with
      | some d => if d.type ≠ "cpu" then t.to d else t
      | none => t
    Except.ok t

/-- Model of `for i, input_name in enumerate(self._input_names): input_ = inputs[i]; ...`:
bind each coerced input under its canonical name; running out of supplied
inputs raises `IndexError`; supplied inputs beyond the names are ignored. -/
def bindInputsAux (msl : Option Nat) (dev : Option Device) :
    List String → List PyVal → VarMap → Except ExecError VarMap
  | [], _, m => Except.ok m
  | n :: ns, inputs, m =>
    match inputs with
    | [] => Except.error ExecError.indexError
    | v :: rest =>
      match coerceInput msl dev n v with
      | Except.error err => Except.error err
      | Except.ok t => bindInputsAux msl dev ns rest (dinsert m n (Val.tensor t))

/-- Whether the parenthesised disjunct of the arity assertion accepts the
call: the first argument is a DataFrame (an `isinstance` check, so subclasses
count), `check_dataframe_to_array` is unset, and the column count matches. -/
def tabularOk (e : Executor) (x0 : PyVal) : Bool :=
  match x0 with
  | .dataframe _ cols =>
    !e.check_dataframe_to_array && (e._input_names.length == cols.length)
  | _ => false

/-- One reshaped column of the DataFrame split:
`inputs[name].to_numpy().reshape(-1, 1)`, a fresh exact ndarray of shape
(rows, 1) with the column's dtype and payload. -/
def colAsArray (c : DFColumn) : PyVal :=
  PyVal.ndarray "numpy.ndarray"
    { dtype := c.dtype,
      shape := [(match c.data with | .nums qs => qs.length | .strs ss => ss.length), 1],
      data := c.data }

/-- The DataFrame split: `splits = [inputs[input_names[idx]] ...]` looks each
column up by its name (first match, adequate under the minimal column
contract), then reshapes it to a single-feature column array. -/
def dfSplit (cols : List DFColumn) : List PyVal :=
  cols.map (fun c0 =>
    match cols.find? (fun c => c.name == c0.name) with
    | some c => colAsArray c
    | none => PyVal.other "unreachable")

/-- The prologue of `forward` up to and including input binding: the arity
assertion (whose condition indexes `inputs[0]`, raising `IndexError` on an
empty argument tuple), the DataFrame split, and the input-binding loop seeding
the fresh symbol table. -/
def forwardBindings (e : Executor) (inputs0 : List PyVal) : Except ExecError VarMap :=
  let arity_check : Except ExecError Unit :=
    if e._input_names.length = inputs0.length then Except.ok () else
      match inputs0 with
      | [] => Except.error ExecError.indexError
      | x0 :: _ =>
        if tabularOk e x0 then Except.ok ()
        else Except.error (ExecError.arityAssert e._input_names)
  match arity_check with
  | Except.error err => Except.error err
  | Except.ok _ =>
    match inputs0 with
    | [] => Except.error ExecError.indexError
    | x0 :: _ =>
      match x0 with
      | .dataframe _ cols =>
        bindInputsAux e.max_string_length (get_device e) e._input_names (dfSplit cols) []
      | _ => bindInputsAux e.max_string_length (get_device e) e._input_names inputs0 []

/-- The prefix of `forward` up to the end of the operator loop: the final symbol table. -/
def forwardFinalMap (e : Executor) (inputs0 : List PyVal) : Except ExecError VarMap :=
  match forwardBindings e inputs0 with
  | Except.error err => Except.error err
  | Except.ok m => runOperators e._operators m

/-- The output assembly at the end of `forward`: one resolved output name
returns its bound value directly, otherwise the ordered tuple of bound values. -/
def assembleOutput (m : VarMap) (output_names : List String) : Except ExecError Output :=
  match output_names with
  | [o] =>
    match dget m o with
    | some v => Except.ok (Output.single v)
    | none => Except.error (ExecError.keyError o)
  | os => (lookupEach m os).map Output.tup

/-- Model of `Executor.forward(*inputs)`: arity check, optional DataFrame split, input
normalization into a fresh symbol table, the operator loop, output assembly.
The `print` calls are side effects with no bearing on the result and are not
modelled; the whole body runs under `torch.no_grad()`, which has no effect on
the values computed here. -/
def forward (e : Executor) (inputs0 : List PyVal) : Except ExecError Output :=
  match forwardFinalMap e inputs0 with
  | Except.error err => Except.error err
  | Except.ok m => assembleOutput m e._output_names

/-! ### Properties of the name resolver -/

/-- Well-formedness of the map the scan maintains: keys are distinct and every
key is a declared name. -/
def MapInv (names : List String) (m : NameMap) : Prop :=
  (m.map Prod.fst).Nodup ∧ ∀ k ∈ m.map Prod.fst, k ∈ names

theorem contains_of_mem {l : List String} {a : String} (h : a ∈ l) :
    l.contains a = true := by
  simpa [List.elem_iff] using h

theorem assocFind?_append {α : Type} (m₁ m₂ : List (String × α)) (k : String) :
    assocFind? (m₁ ++ m₂) k = (assocFind? m₁ k).or (assocFind? m₂ k) := by
  unfold assocFind?
  rw [List.find?_append]
  cases List.find? (fun p => p.1 == k) m₁ <;> simp

theorem lookupName_append (m₁ m₂ : NameMap) (k : String) :
    lookupName (m₁ ++ m₂) k = (lookupName m₁ k).or (lookupName m₂ k) :=
  assocFind?_append m₁ m₂ k

theorem lookupName_singleton (k k' f : String) :
    lookupName [(k', f)] k = if k' = k then some f else none := by
  by_cases h : k' = k
  · simp [lookupName, assocFind?, List.find?, h]
  · have hb : (k' == k) = false := by simp [h]
    simp [lookupName, assocFind?, List.find?, hb, h]

theorem lookupName_none_iff (m : NameMap) (k : String) :
    lookupName m k = none ↔ ∀ p ∈ m, p.1 ≠ k := by
  simp [lookupName, assocFind?, List.find?_eq_none]

theorem scanVars_nil (names : List String) (m : NameMap) :
    scanVars names [] m = m := rfl

theorem scanVars_cons (names : List String) (v : TopoVariable) (vs : List TopoVariable)
    (m : NameMap) :
    scanVars names (v :: vs) m =
      scanVars names vs
        (if names.contains v.raw_name && (lookupName m v.raw_name).isNone then
          m ++ [(v.raw_name, v.full_name)] else m) := rfl

theorem scanVars_lookup_mono {names : List String} {vs : List TopoVariable}
    {m : NameMap} {k f : String} (h : lookupName m k = some f) :
    lookupName (scanVars names vs m) k = some f := by
  induction vs generalizing m with
  | nil => exact h
  | cons v vs ih =>
    rw [scanVars_cons]
    by_cases hc : (names.contains v.raw_name && (lookupName m v.raw_name).isNone) = true
    · rw [if_pos hc]
      exact ih (by rw [lookupName_append, h]; rfl)
    · rw [if_neg hc]
      exact ih h

theorem scanVars_lookup_of_ne {names : List String} {vs : List TopoVariable}
    {m : NameMap} {k : String} (h : ∀ v ∈ vs, v.raw_name ≠ k) :
    lookupName (scanVars names vs m) k = lookupName m k := by
  induction vs generalizing m with
  | nil => rfl
  | cons v vs ih =>
    rw [scanVars_cons]
    have hv : v.raw_name ≠ k := h v (List.mem_cons_self v vs)
    have hrest : ∀ w ∈ vs, w.raw_name ≠ k := fun w hw => h w (List.mem_cons_of_mem _ hw)
    by_cases hc : (names.contains v.raw_name && (lookupName m v.raw_name).isNone) = true
    · rw [if_pos hc, ih hrest, lookupName_append, lookupName_singleton]
      simp [hv]
    · rw [if_neg hc]
      exact ih hrest

theorem scanVars_of_not_contains {names : List String} {vs : List TopoVariable}
    {m : NameMap} (h : ∀ v ∈ vs, names.contains v.raw_name = false) :
    scanVars names vs m = m := by
  induction vs generalizing m with
  | nil => rfl
  | cons v vs ih =>
    rw [scanVars_cons, h v (List.mem_cons_self v vs)]
    simpa using ih (fun w hw => h w (List.mem_cons_of_mem _ hw))

theorem scanVars_lookup_insert {names : List String} {vs : List TopoVariable}
    {m : NameMap} {k : String} {v : TopoVariable}
    (hk : names.contains k = true) (hnone : lookupName m k = none)
    (hfind : vs.find? (fun w => w.raw_name == k) = some v) :
    lookupName (scanVars names vs m) k = some v.full_name := by
  induction vs generalizing m with
  | nil => simp [List.find?] at hfind
  | cons w vs ih =>
    rw [scanVars_cons]
    by_cases hw : w.raw_name = k
    · have hv : w = v := by
        rw [List.find?_cons_of_pos _ (by simp [hw])] at hfind
        exact Option.some.inj hfind
      have hc : (names.contains w.raw_name && (lookupName m w.raw_name).isNone) = true := by
        rw [hw, hk, hnone]
        rfl
      rw [if_pos hc]
      apply scanVars_lookup_mono
      rw [lookupName_append, hnone, hw, lookupName_singleton]
      simp [hv]
    · have hfind' : vs.find? (fun w => w.raw_name == k) = some v := by
        rwa [List.find?_cons_of_neg _ (by simp [hw])] at hfind
      by_cases hc : (names.contains w.raw_name && (lookupName m w.raw_name).isNone) = true
      · rw [if_pos hc]
        apply ih _ hfind'
        rw [lookupName_append, hnone, lookupName_singleton]
        simp [hw]
      · rw [if_neg hc]
        exact ih hnone hfind'

theorem lookup_append_singleton_isSome {m : NameMap} {k k' f : String}
    (h : (lookupName (m ++ [(k', f)]) k).isSome) :
    (lookupName m k).isSome ∨ k' = k := by
  rw [lookupName_append, lookupName_singleton] at h
  cases hm : lookupName m k with
  | some g => exact Or.inl (by simp [hm])
  | none =>
    rw [hm] at h
    by_cases hk : k' = k
    · exact Or.inr hk
    · simp [hk] at h

theorem scanVars_lookup_isSome {names : List String} {vs : List TopoVariable}
    {m : NameMap} {k : String}
    (h : (lookupName (scanVars names vs m) k).isSome) :
    (lookupName m k).isSome ∨ ∃ v ∈ vs, v.raw_name = k := by
  induction vs generalizing m with
  | nil => exact Or.inl h
  | cons v vs ih =>
    rw [scanVars_cons] at h
    by_cases hc : (names.contains v.raw_name && (lookupName m v.raw_name).isNone) = true
    · rw [if_pos hc] at h
      rcases ih h with h' | ⟨w, hw, hwk⟩
      · rcases lookup_append_singleton_isSome h' with h'' | rfl
        · exact Or.inl h''
        · exact Or.inr ⟨v, List.mem_cons_self v vs, rfl⟩
      · exact Or.inr ⟨w, List.mem_cons_of_mem _ hw, hwk⟩
    · rw [if_neg hc] at h
      rcases ih h with h' | ⟨w, hw, hwk⟩
      · exact Or.inl h'
      · exact Or.inr ⟨w, List.mem_cons_of_mem _ hw, hwk⟩

theorem scanVars_lookup_isSome_of_match {names : List String} {vs : List TopoVariable}
    {m : NameMap} {k : String}
    (hk : names.contains k = true) (hv : ∃ v ∈ vs, v.raw_name = k) :
    (lookupName (scanVars names vs m) k).isSome := by
  cases hsk : lookupName m k with
  | some f => simp [scanVars_lookup_mono hsk]
  | none =>
    have hfs : (vs.find? (fun w => w.raw_name == k)).isSome := by
      rw [List.find?_isSome]
      obtain ⟨v, hvm, hvk⟩ := hv
      exact ⟨v, hvm, by simp [hvk]⟩
    obtain ⟨v, hfind⟩ := Option.isSome_iff_exists.mp hfs
    simp [scanVars_lookup_insert hk hsk hfind]

theorem scanVars_inv {names : List String} {vs : List TopoVariable} {m : NameMap}
    (h : MapInv names m) : MapInv names (scanVars names vs m) := by
  induction vs generalizing m with
  | nil => exact h
  | cons v vs ih =>
    rw [scanVars_cons]
    by_cases hc : (names.contains v.raw_name && (lookupName m v.raw_name).isNone) = true
    · rw [if_pos hc]
      apply ih
      obtain ⟨hnd, hsub⟩ := h
      obtain ⟨hcont, hnone⟩ := Bool.and_eq_true_iff.mp hc
      have hraw : v.raw_name ∉ m.map Prod.fst := by
        intro hk
        obtain ⟨p, hp, hpk⟩ := List.mem_map.mp hk
        exact ((lookupName_none_iff m v.raw_name).mp
          (Option.isNone_iff_eq_none.mp hnone)) p hp hpk
      constructor
      · rw [List.map_append]
        simp only [List.map_cons, List.map_nil]
        rw [List.nodup_append]
        exact ⟨hnd, List.nodup_singleton _, by
          intro a ha hb
          simp only [List.mem_singleton] at hb
          exact hraw (hb ▸ ha)⟩
      · intro k hk
        rw [List.map_append] at hk
        rcases List.mem_append.mp hk with hk | hk
        · exact hsub k hk
        · simp only [List.map_cons, List.map_nil, List.mem_singleton] at hk
          rw [hk]
          simpa [List.elem_iff] using hcont
    · rw [if_neg hc]
      exact ih h

theorem length_ne_of_missing {names : List String} {m : NameMap} {n : String}
    (hinv : MapInv names m) (hn : n ∈ names) (hnone : lookupName m n = none) :
    m.length ≠ names.length := by
  intro hlen
  obtain ⟨hnd, hsub⟩ := hinv
  have hnk : n ∉ m.map Prod.fst := by
    intro hk
    obtain ⟨p, hp, hpk⟩ := List.mem_map.mp hk
    exact ((lookupName_none_iff m n).mp hnone) p hp hpk
  have hkeyslen : (m.map Prod.fst).length = names.length := by
    simpa using hlen
  have h1 : (m.map Prod.fst).toFinset.card = names.length := by
    rw [List.toFinset_card_of_nodup hnd]
    exact hkeyslen
  have h2 : (m.map Prod.fst).toFinset ⊆ names.toFinset := by
    intro x hx
    rw [List.mem_toFinset] at hx ⊢
    exact hsub x hx
  have h3 : names.toFinset.card ≤ names.length := names.toFinset_card_le
  have heq : (m.map Prod.fst).toFinset = names.toFinset :=
    Finset.eq_of_subset_of_card_le h2 (by omega)
  have : n ∈ (m.map Prod.fst).toFinset := by
    rw [heq, List.mem_toFinset]
    exact hn
  exact hnk (List.mem_toFinset.mp this)

theorem buildMapAux_cons (mod : String) (names : List String) (op : TopoOperator)
    (rest : List TopoOperator) (m : NameMap) :
    buildMapAux mod names (op :: rest) m =
      (let m' := scanVars names (selOf mod op) m
       if m'.length = names.length then m' else buildMapAux mod names rest m') := rfl

theorem buildMapAux_lookup_mono {mod : String} {names : List String}
    {ops : List TopoOperator} {m : NameMap} {k f : String}
    (h : lookupName m k = some f) :
    lookupName (buildMapAux mod names ops m) k = some f := by
  induction ops generalizing m with
  | nil => exact h
  | cons op rest ih =>
    rw [buildMapAux_cons]
    have h' : lookupName (scanVars names (selOf mod op) m) k = some f :=
      scanVars_lookup_mono h
    by_cases hl : (scanVars names (selOf mod op) m).length = names.length
    · simpa [hl] using h'
    · simpa [hl] using ih h'

theorem buildMapAux_lookup_isSome {mod : String} {names : List String}
    {ops : List TopoOperator} {m : NameMap} {k : String}
    (h : (lookupName (buildMapAux mod names ops m) k).isSome) :
    (lookupName m k).isSome ∨ ∃ op ∈ ops, ∃ v ∈ selOf mod op, v.raw_name = k := by
  induction ops generalizing m with
  | nil => exact Or.inl h
  | cons op rest ih =>
    rw [buildMapAux_cons] at h
    by_cases hl : (scanVars names (selOf mod op) m).length = names.length
    · simp only [hl, if_true] at h
      rcases scanVars_lookup_isSome h with h' | ⟨v, hv, hvk⟩
      · exact Or.inl h'
      · exact Or.inr ⟨op, List.mem_cons_self op rest, v, hv, hvk⟩
    · simp only [hl, if_false] at h
      rcases ih h with h' | ⟨op', hop', hrest⟩
      · rcases scanVars_lookup_isSome h' with h'' | ⟨v, hv, hvk⟩
        · exact Or.inl h''
        · exact Or.inr ⟨op, List.mem_cons_self op rest, v, hv, hvk⟩
      · exact Or.inr ⟨op', List.mem_cons_of_mem _ hop', hrest⟩

theorem buildMapAux_nil_of_no_match {mod : String} {names : List String}
    {ops : List TopoOperator}
    (h : ∀ op ∈ ops, ∀ v ∈ selOf mod op, names.contains v.raw_name = false) :
    buildMapAux mod names ops [] = [] := by
  induction ops with
  | nil => rfl
  | cons op rest ih =>
    rw [buildMapAux_cons]
    rw [scanVars_of_not_contains (h op (List.mem_cons_self op rest))]
    by_cases hl : ([] : NameMap).length = names.length
    · simp [hl]
    · simp only [hl, if_false]
      exact ih (fun o ho => h o (List.mem_cons_of_mem _ ho))

theorem buildMapAux_append_no_producer {mod : String} {names : List String}
    {ops₁ : List TopoOperator} {n : String} (ops₂ : List TopoOperator) {m : NameMap}
    (hinv : MapInv names m) (hn : n ∈ names) (hnone : lookupName m n = none)
    (hno : ∀ op ∈ ops₁, ∀ v ∈ selOf mod op, v.raw_name ≠ n) :
    ∃ m', buildMapAux mod names (ops₁ ++ ops₂) m = buildMapAux mod names ops₂ m' ∧
      MapInv names m' ∧ lookupName m' n = none := by
  induction ops₁ generalizing m with
  | nil => exact ⟨m, rfl, hinv, hnone⟩
  | cons op rest ih =>
    rw [List.cons_append, buildMapAux_cons]
    have hnone' : lookupName (scanVars names (selOf mod op) m) n = none := by
      rw [scanVars_lookup_of_ne (hno op (List.mem_cons_self op rest))]
      exact hnone
    have hinv' : MapInv names (scanVars names (selOf mod op) m) := scanVars_inv hinv
    have hne : (scanVars names (selOf mod op) m).length ≠ names.length :=
      length_ne_of_missing hinv' hn hnone'
    simp only [hne, if_false]
    exact ih hinv' hnone' (fun o ho => hno o (List.mem_cons_of_mem _ ho))

theorem buildMapAux_lookup_isSome_of_match {mod : String} {names : List String}
    {ops : List TopoOperator} {m : NameMap} {n k : String}
    (hn : n ∈ names) (hnoN : ∀ op ∈ ops, ∀ v ∈ selOf mod op, v.raw_name ≠ n)
    (hinv : MapInv names m) (hnone : lookupName m n = none)
    (hk : names.contains k = true)
    (hmk : (lookupName m k).isSome ∨ ∃ op ∈ ops, ∃ v ∈ selOf mod op, v.raw_name = k) :
    (lookupName (buildMapAux mod names ops m) k).isSome := by
  induction ops generalizing m with
  | nil =>
    rcases hmk with h | ⟨op, hop, _⟩
    · exact h
    · cases hop
  | cons op rest ih =>
    rw [buildMapAux_cons]
    have hnone' : lookupName (scanVars names (selOf mod op) m) n = none := by
      rw [scanVars_lookup_of_ne (hnoN op (List.mem_cons_self op rest))]
      exact hnone
    have hinv' : MapInv names (scanVars names (selOf mod op) m) := scanVars_inv hinv
    have hne : (scanVars names (selOf mod op) m).length ≠ names.length :=
      length_ne_of_missing hinv' hn hnone'
    simp only [hne, if_false]
    apply ih (fun o ho => hnoN o (List.mem_cons_of_mem _ ho)) hinv' hnone'
    rcases hmk with hs | ⟨o, ho, v, hv, hvk⟩
    · obtain ⟨f, hf⟩ := Option.isSome_iff_exists.mp hs
      exact Or.inl (by simp [scanVars_lookup_mono hf])
    · rcases List.mem_cons.mp ho with rfl | ho'
      · exact Or.inl (scanVars_lookup_isSome_of_match hk ⟨v, hv, hvk⟩)
      · exact Or.inr ⟨o, ho', v, hv, hvk⟩

theorem resolveNames_error_of_missing {m : NameMap} {names : List String} {n : String}
    (hn : n ∈ names) (hnone : lookupName m n = none) :
    ∃ e, resolveNames m names = Except.error e ∧ e ∈ names ∧ lookupName m e = none := by
  induction names with
  | nil => cases hn
  | cons a rest ih =>
    cases ha : lookupName m a with
    | none => exact ⟨a, by simp [resolveNames, ha], List.mem_cons_self a rest, ha⟩
    | some f =>
      have hn' : n ∈ rest := by
        rcases List.mem_cons.mp hn with rfl | h
        · rw [ha] at hnone
          cases hnone
        · exact h
      obtain ⟨e, he, hem, hen⟩ := ih hn'
      refine ⟨e, ?_, List.mem_cons_of_mem _ hem, hen⟩
      simp [resolveNames, ha, he, Except.map]

theorem resolveNames_ok_get {m : NameMap} {names res : List String}
    (h : resolveNames m names = Except.ok res) :
    ∀ j r, names.get? j = some r → ∃ f, lookupName m r = some f ∧ res.get? j = some f := by
  induction names generalizing res with
  | nil =>
    intro j r hr
    simp at hr
  | cons a rest ih =>
    intro j r hr
    cases ha : lookupName m a with
    | none => simp [resolveNames, ha] at h
    | some f =>
      simp only [resolveNames, ha] at h
      cases hrest : resolveNames m rest with
      | error e =>
        rw [hrest] at h
        simp [Except.map] at h
      | ok res' =>
        rw [hrest] at h
        simp only [Except.map, Except.ok.injEq] at h
        subst h
        cases j with
        | zero =>
          simp only [List.get?] at hr
          cases hr
          exact ⟨f, ha, rfl⟩
        | succ j =>
          simp only [List.get?] at hr ⊢
          exact ih hrest j r hr

theorem contains_eq_false_of_not_mem {l : List String} {a : String} (h : a ∉ l) :
    l.contains a = false := by
  cases hc : l.contains a with
  | false => rfl
  | true => exact absurd (by simpa [List.elem_iff] using hc) h

/-- C4: for every operator sequence and declared name list given to
`_fix_var_naming`: if no declared name matches any raw name over the whole
scan, the declared names are returned as canonical unchanged; if at least one
declared name matches but some declared name never matches, resolution fails
with a missing-key lookup error for an unresolved declared name. -/
theorem resolver_fallback_or_missing_key (ops : List TopoOperator)
    (names : List String) (mod : String) :
    ((∀ op ∈ ops, ∀ v ∈ selOf mod op, v.raw_name ∉ names) →
      fix_var_naming ops names mod = Except.ok names)
    ∧ (∀ n ∈ names,
        (∃ op ∈ ops, ∃ v ∈ selOf mod op, v.raw_name ∈ names) →
        (∀ op ∈ ops, ∀ v ∈ selOf mod op, v.raw_name ≠ n) →
        ∃ e, fix_var_naming ops names mod = Except.error e ∧ e ∈ names ∧
          (∀ op ∈ ops, ∀ v ∈ selOf mod op, v.raw_name ≠ e)) := by
  constructor
  · intro h
    have hnil : buildMapAux mod names ops [] = [] :=
      buildMapAux_nil_of_no_match
        (fun op hop v hv => contains_eq_false_of_not_mem (h op hop v hv))
    simp [fix_var_naming, hnil]
  · intro n hn hex hnoN
    obtain ⟨op₀, hop₀, v₀, hv₀, hv₀mem⟩ := hex
    have hinv0 : MapInv names ([] : NameMap) := ⟨List.nodup_nil, by simp⟩
    have hMn : lookupName (buildMapAux mod names ops []) n = none := by
      cases hM : lookupName (buildMapAux mod names ops []) n with
      | none => rfl
      | some f =>
        have hsome : (lookupName (buildMapAux mod names ops []) n).isSome := by
          simp [hM]
        rcases buildMapAux_lookup_isSome hsome with h' | ⟨op, hop, v, hv, hvk⟩
        · simp [lookupName, assocFind?] at h'
        · exact absurd hvk (hnoN op hop v hv)
    have hMk : (lookupName (buildMapAux mod names ops []) v₀.raw_name).isSome :=
      buildMapAux_lookup_isSome_of_match hn hnoN hinv0 rfl
        (contains_of_mem hv₀mem) (Or.inr ⟨op₀, hop₀, v₀, hv₀, rfl⟩)
    have hMne : (buildMapAux mod names ops []).isEmpty = false := by
      cases hM : buildMapAux mod names ops [] with
      | nil => rw [hM] at hMk; simp [lookupName, assocFind?] at hMk
      | cons p rest => rfl
    have hfix : fix_var_naming ops names mod =
        resolveNames (buildMapAux mod names ops []) names := by
      simp [fix_var_naming, hMne]
    obtain ⟨e, he, hem, hen⟩ := resolveNames_error_of_missing hn hMn
    refine ⟨e, by rw [hfix]; exact he, hem, ?_⟩
    intro op hop v hv hveq
    have : (lookupName (buildMapAux mod names ops []) e).isSome :=
      buildMapAux_lookup_isSome_of_match hn hnoN hinv0 rfl
        (contains_of_mem hem) (Or.inr ⟨op, hop, v, hv, hveq⟩)
    rw [hen] at this
    cases this

/-- Witness for C4: a two-operator graph where `x` matches an input raw name.
Asking for `["x"]` resolves; asking for `["z"]` falls back to the declared
names; asking for `["x", "z"]` fails with a missing-key error naming `z`. -/
theorem resolver_fallback_or_missing_key_witness :
    fix_var_naming
        [{ full_name := "opA", inputs := [⟨"x", "x.0"⟩], outputs := [⟨"s", "s.1"⟩] }]
        ["z"] "input" = Except.ok ["z"]
    ∧ ∃ e, fix_var_naming
        [{ full_name := "opA", inputs := [⟨"x", "x.0"⟩], outputs := [⟨"s", "s.1"⟩] }]
        ["x", "z"] "input" = Except.error e ∧ e ∈ ["x", "z"] ∧
        (∀ op ∈ [({ full_name := "opA", inputs := [⟨"x", "x.0"⟩], outputs := [⟨"s", "s.1"⟩] } : TopoOperator)],
          ∀ v ∈ selOf "input" op, v.raw_name ≠ e) := by
  constructor
  · exact (resolver_fallback_or_missing_key
      [{ full_name := "opA", inputs := [⟨"x", "x.0"⟩], outputs := [⟨"s", "s.1"⟩] }]
      ["z"] "input").1 (by decide)
  · exact (resolver_fallback_or_missing_key
      [{ full_name := "opA", inputs := [⟨"x", "x.0"⟩], outputs := [⟨"s", "s.1"⟩] }]
      ["x", "z"] "input").2 "z" (by decide) (by decide) (by decide)

theorem selOf_output (op : TopoOperator) : selOf "output" op = op.outputs := rfl

/-- C6: output-name resolution scans the operator sequence in reverse
(`_fix_var_naming(reversed(operators), output_names, "output")`), so when
several operators produce the same raw output name, the canonical name
recorded for that raw name is the one declared by the last such operator in
topological order: if `op` is the last operator whose outputs contain raw name
`r`, the recorded map and any successful resolution both assign `r` the full
name declared there. -/
theorem output_resolution_last_wins (ops l₁ l₂ : List TopoOperator)
    (op : TopoOperator) (names : List String) (r : String) (v : TopoVariable)
    (hr : r ∈ names)
    (hsplit : ops = l₁ ++ op :: l₂)
    (hlast : ∀ o ∈ l₂, ∀ w ∈ o.outputs, w.raw_name ≠ r)
    (hfind : op.outputs.find? (fun w => w.raw_name == r) = some v) :
    lookupName (buildMapAux "output" names ops.reverse []) r = some v.full_name
    ∧ ∀ resolved, fix_var_naming ops.reverse names "output" = Except.ok resolved →
        ∀ j, names.get? j = some r → resolved.get? j = some v.full_name := by
  have hrev : ops.reverse = l₂.reverse ++ op :: l₁.reverse := by
    rw [hsplit]
    simp
  have hM : lookupName (buildMapAux "output" names ops.reverse []) r = some v.full_name := by
    rw [hrev]
    have hinv0 : MapInv names ([] : NameMap) := ⟨List.nodup_nil, by simp⟩
    have hnoprod : ∀ o ∈ l₂.reverse, ∀ w ∈ selOf "output" o, w.raw_name ≠ r := by
      intro o ho w hw
      rw [selOf_output] at hw
      exact hlast o (List.mem_reverse.mp ho) w hw
    obtain ⟨m', hskip, _, hnone'⟩ :=
      buildMapAux_append_no_producer (op :: l₁.reverse) hinv0 hr rfl hnoprod
    rw [hskip, buildMapAux_cons]
    have h₂ : lookupName (scanVars names (selOf "output" op) m') r = some v.full_name := by
      apply scanVars_lookup_insert (contains_of_mem hr) hnone'
      rw [selOf_output]
      exact hfind
    by_cases hl : (scanVars names (selOf "output" op) m').length = names.length
    · simpa [hl] using h₂
    · simpa [hl] using buildMapAux_lookup_mono h₂
  refine ⟨hM, ?_⟩
  intro resolved hres j hj
  have hMne : (buildMapAux "output" names ops.reverse []).isEmpty = false := by
    cases hMm : buildMapAux "output" names ops.reverse [] with
    | nil => rw [hMm] at hM; simp [lookupName, assocFind?] at hM
    | cons p rest => rfl
  have hres' : resolveNames (buildMapAux "output" names ops.reverse []) names =
      Except.ok resolved := by
    rw [fix_var_naming] at hres
    simpa [hMne] using hres
  obtain ⟨f, hf, hg⟩ := resolveNames_ok_get hres' j r hj
  rw [hM] at hf
  cases hf
  exact hg

/-- Witness for C6: two operators both produce raw name `s`; the recorded
canonical name is the second (last) operator's `s.2`, and resolving `["s"]`
yields `["s.2"]`. -/
theorem output_resolution_last_wins_witness :
    lookupName
      (buildMapAux "output" ["s"]
        ([{ full_name := "opA", inputs := [], outputs := [⟨"s", "s.1"⟩] },
          { full_name := "opB", inputs := [], outputs := [⟨"s", "s.2"⟩] }] :
            List TopoOperator).reverse []) "s" = some "s.2" := by
  exact (output_resolution_last_wins
    [{ full_name := "opA", inputs := [], outputs := [⟨"s", "s.1"⟩] },
     { full_name := "opB", inputs := [], outputs := [⟨"s", "s.2"⟩] }]
    [{ full_name := "opA", inputs := [], outputs := [⟨"s", "s.1"⟩] }] []
    { full_name := "opB", inputs := [], outputs := [⟨"s", "s.2"⟩] }
    ["s"] "s" ⟨"s", "s.2"⟩ (by decide) (by decide) (by decide) (by decide)).1

/-! ### Properties of the forward call -/

theorem find?_name_self {cols : List DFColumn} (h : (cols.map DFColumn.name).Nodup)
    {c0 : DFColumn} (hc0 : c0 ∈ cols) :
    cols.find? (fun c => c.name == c0.name) = some c0 := by
  induction cols with
  | nil => cases hc0
  | cons c rest ih =>
    rcases List.mem_cons.mp hc0 with rfl | hmem
    · exact List.find?_cons_of_pos _ (by simp)
    · have hN : (c.name :: rest.map DFColumn.name).Nodup := by simpa using h
      have hne : c.name ≠ c0.name := by
        intro he
        exact (List.nodup_cons.mp hN).1 (he ▸ List.mem_map_of_mem DFColumn.name hmem)
      rw [List.find?_cons_of_neg _ (by simp [hne])]
      exact ih (List.nodup_cons.mp hN).2 hmem

theorem dfSplit_eq_map {cols : List DFColumn} (h : (cols.map DFColumn.name).Nodup) :
    dfSplit cols = cols.map colAsArray := by
  unfold dfSplit
  apply List.map_congr_left
  intro c0 hc0
  rw [find?_name_self h hc0]

/-- C1: for an executor whose resolved input count equals the column count of
a DataFrame (with at least one, distinctly named, column), calling `forward`
with the lone DataFrame succeeds with the same bound input tensors as calling
with the per-column single-feature column arrays in column order, and the two
calls return the same result. `check_dataframe_to_array` and the column
name-lookup contract are modelled from the spec. -/
theorem tabular_splitting_law (e : Executor) (ty : String) (cols : List DFColumn)
    (bs : VarMap)
    (hN : e._input_names.length = cols.length)
    (hne : cols ≠ [])
    (hnodup : (cols.map DFColumn.name).Nodup)
    (hflag : e.check_dataframe_to_array = false)
    (harr : forwardBindings e (cols.map colAsArray) = Except.ok bs) :
    forwardBindings e [PyVal.dataframe ty cols] = Except.ok bs
    ∧ forward e [PyVal.dataframe ty cols] = forward e (cols.map colAsArray) := by
  have hdf : forwardBindings e [PyVal.dataframe ty cols] =
      bindInputsAux e.max_string_length (get_device e) e._input_names (dfSplit cols) [] := by
    unfold forwardBindings
    have htab : tabularOk e (PyVal.dataframe ty cols) = true := by
      simp [tabularOk, hflag, hN]
    by_cases h1 : e._input_names.length = 1
    · simp [h1]
    · simp [htab, h1]
  have harr' : forwardBindings e (cols.map colAsArray) =
      bindInputsAux e.max_string_length (get_device e) e._input_names (cols.map colAsArray) [] := by
    unfold forwardBindings
    have hlen : e._input_names.length = (cols.map colAsArray).length := by
      simpa using hN
    cases cols with
    | nil => exact absurd rfl hne
    | cons c cs => simp [hlen, colAsArray]
  have hkey : forwardBindings e [PyVal.dataframe ty cols] =
      forwardBindings e (cols.map colAsArray) := by
    rw [hdf, harr', dfSplit_eq_map hnodup]
  constructor
  · rw [hkey]
    exact harr
  · unfold forward forwardFinalMap
    rw [hkey]

/-- A minimal executor fixture: one input `x`, one output `y`, one identity
operator, no string-length configuration, cpu placement. -/
def exId : Executor :=
  { _input_names := ["x"], _output_names := ["y"],
    _operators := [{ inputs := ["x"], outputs := ["y"], transform := fun args => args.headD default }],
    max_string_length := none, check_dataframe_to_array := false, device := none }

/-- A two-input executor fixture with no operators. -/
def exTwo : Executor :=
  { _input_names := ["a", "b"], _output_names := ["a"], _operators := [],
    max_string_length := none, check_dataframe_to_array := false, device := none }

/-- Witness for C1: a two-column DataFrame against `exTwo` produces exactly
the bindings of the two column arrays. -/
theorem tabular_splitting_law_witness :
    forwardBindings exTwo
        [PyVal.dataframe "pandas.DataFrame"
          [{ name := "c1", dtype := NpDType.float64, data := NpData.nums [1, 2] },
           { name := "c2", dtype := NpDType.int64, data := NpData.nums [3, 4] }]] =
      Except.ok
        [("a", Val.tensor { dtype := TDType.tfloat32, shape := [2, 1], data := [1, 2], device := "cpu" }),
         ("b", Val.tensor { dtype := TDType.tint64, shape := [2, 1], data := [3, 4], device := "cpu" })] := by
  exact (tabular_splitting_law exTwo "pandas.DataFrame"
    [{ name := "c1", dtype := NpDType.float64, data := NpData.nums [1, 2] },
     { name := "c2", dtype := NpDType.int64, data := NpData.nums [3, 4] }]
    [("a", Val.tensor { dtype := TDType.tfloat32, shape := [2, 1], data := [1, 2], device := "cpu" }),
     ("b", Val.tensor { dtype := TDType.tint64, shape := [2, 1], data := [3, 4], device := "cpu" })]
    (by decide) (by decide) (by decide) (by decide) (by decide)).1

/-- C3: when the number of positional arguments equals the number of resolved
input names and the first argument is a DataFrame, the remaining positional
arguments are silently discarded (the result only depends on the DataFrame)
and the DataFrame's split columns become the full input list handed to the
binding loop, with no check of the column count against the expected input
count. -/
theorem dataframe_overrides_positional (e : Executor) (ty : String)
    (cols : List DFColumn) (rest rest' : List PyVal)
    (hN : e._input_names.length = rest.length + 1)
    (hlen : rest'.length = rest.length) :
    forward e (PyVal.dataframe ty cols :: rest) = forward e (PyVal.dataframe ty cols :: rest')
    ∧ forwardBindings e (PyVal.dataframe ty cols :: rest) =
        bindInputsAux e.max_string_length (get_device e) e._input_names (dfSplit cols) [] := by
  have key : ∀ rs : List PyVal, e._input_names.length = rs.length + 1 →
      forwardBindings e (PyVal.dataframe ty cols :: rs) =
        bindInputsAux e.max_string_length (get_device e) e._input_names (dfSplit cols) [] := by
    intro rs hrs
    unfold forwardBindings
    simp [hrs]
  constructor
  · unfold forward forwardFinalMap
    rw [key rest hN, key rest' (by rw [hlen]; exact hN)]
  · exact key rest hN

/-- Witness for C3: `exId` expects one input, yet accepts a lone two-column
DataFrame and binds only its first column. -/
theorem dataframe_overrides_positional_witness :
    forwardBindings exId
        [PyVal.dataframe "pandas.DataFrame"
          [{ name := "c1", dtype := NpDType.float64, data := NpData.nums [1, 2] },
           { name := "c2", dtype := NpDType.float64, data := NpData.nums [3, 4] }]] =
      Except.ok
        [("x", Val.tensor { dtype := TDType.tfloat32, shape := [2, 1], data := [1, 2], device := "cpu" })] := by
  rw [(dataframe_overrides_positional exId "pandas.DataFrame"
    [{ name := "c1", dtype := NpDType.float64, data := NpData.nums [1, 2] },
     { name := "c2", dtype := NpDType.float64, data := NpData.nums [3, 4] }]
    [] [] (by decide) (by decide)).2]
  decide

/-- C5 counterexample: with a single resolved input, calling `forward` with
zero positional inputs — the exception does not apply — raises `IndexError`
while evaluating `inputs[0]` inside the assertion's condition, not the
arity-mismatch `AssertionError` carrying the expected input name list. -/
theorem arity_empty_input_counterexample :
    forward exId [] = Except.error ExecError.indexError
    ∧ Except.error ExecError.indexError ≠
        (Except.error (ExecError.arityAssert exId._input_names) : Except ExecError Output) := by
  exact ⟨by decide, by decide⟩

/-- C5 amended: with at least one positional input supplied, calling with
N-1 or N+1 positional inputs, where the single-tabular-container exception
does not apply, fails with the arity-mismatch assertion whose message carries
the expected input name list (with zero inputs supplied the call instead
fails with an index error, per the counterexample). -/
theorem arity_mismatch_assert (e : Executor) (inputs : List PyVal)
    (x0 : PyVal) (rest : List PyVal)
    (hx : inputs = x0 :: rest)
    (hlen : inputs.length + 1 = e._input_names.length ∨
      inputs.length = e._input_names.length + 1)
    (hno : tabularOk e x0 = false) :
    forward e inputs = Except.error (ExecError.arityAssert e._input_names) := by
  subst hx
  have hne : ¬ e._input_names.length = rest.length + 1 := by
    have hc : (x0 :: rest).length = rest.length + 1 := rfl
    rw [hc] at hlen
    rcases hlen with h | h <;> omega
  unfold forward forwardFinalMap forwardBindings
  simp [hne, hno]

/-- Witness for C5: `exId` expects one input; two tensor inputs trigger the
arity assertion with the expected name list `["x"]`. -/
theorem arity_mismatch_assert_witness :
    forward exId
        [PyVal.tensor "torch.Tensor" { dtype := TDType.tfloat32, shape := [1], data := [1], device := "cpu" },
         PyVal.tensor "torch.Tensor" { dtype := TDType.tfloat32, shape := [1], data := [1], device := "cpu" }] =
      Except.error (ExecError.arityAssert ["x"]) := by
  exact arity_mismatch_assert exId
    [PyVal.tensor "torch.Tensor" { dtype := TDType.tfloat32, shape := [1], data := [1], device := "cpu" },
     PyVal.tensor "torch.Tensor" { dtype := TDType.tfloat32, shape := [1], data := [1], device := "cpu" }]
    (PyVal.tensor "torch.Tensor" { dtype := TDType.tfloat32, shape := [1], data := [1], device := "cpu" })
    [PyVal.tensor "torch.Tensor" { dtype := TDType.tfloat32, shape := [1], data := [1], device := "cpu" }]
    rfl (Or.inr rfl) (by decide)

/-- C2 counterexample: the conversion in the datetime branch is Python true
division, not integer division. For the datetime epoch + 1.5 s (1 500 000 000
elapsed nanoseconds) `forward` binds a float32 tensor holding 3/2, while
integer division of the elapsed nanoseconds by one billion yields the integer
1 — so the bound value is neither an integer-seconds value nor the integer
division result. -/
theorem datetime_integer_division_counterexample :
    forwardBindings exId
        [PyVal.ndarray "numpy.ndarray"
          { dtype := NpDType.datetime64ns, shape := [1], data := NpData.nums [1500000000] }] =
      Except.ok
        [("x", Val.tensor
          { dtype := TDType.tfloat32
            shape := [1]
            data := [((1500000000 : ℚ) - 0) / 1000000000]
            device := "cpu" })]
    ∧ ((1500000000 : ℚ) - 0) / 1000000000 = 3 / 2
    ∧ ((1500000000 : ℤ) / 1000000000 : ℤ) = 1
    ∧ (3 : ℚ) / 2 ≠ ((1 : ℤ) : ℚ) := by
  refine ⟨rfl, by norm_num, by norm_num, by norm_num⟩

/-- C2 amended: for every datetime-kind array input, the normalizer binds the
seconds elapsed since the Unix epoch computed by true (floating-point)
division of the elapsed nanoseconds by one billion, downcast to a
single-precision tensor; in particular the epoch binds 0 and epoch + 90
seconds binds 90 as single-precision floating values. -/
theorem datetime_true_division (msl : Option Nat) (name : String)
    (sh : List Nat) (ns : List ℚ) :
    coerceInput msl none name
        (PyVal.ndarray "numpy.ndarray"
          { dtype := NpDType.datetime64ns, shape := sh, data := NpData.nums ns }) =
      Except.ok
        { dtype := TDType.tfloat32
          shape := sh
          data := ns.map (fun q => q / 1000000000)
          device := "cpu" } := by
  unfold coerceInput classifyToTensor listCoerce coerceNdarray
  simp [NpDType.kind, SUPPORTED_STRING_TYPES, datetime_to_seconds, torch_from_numpy,
    torchDTypeOf, NpData.mapNums, NpData.numsD, Tensor.float, Except.map, sub_zero]

/-- Witness checks for C2's amended statement at the spec's two concrete
datetime inputs: the epoch binds 0 and epoch + 90 s binds 90, as float32. -/
theorem datetime_true_division_witness :
    coerceInput none none "x"
        (PyVal.ndarray "numpy.ndarray"
          { dtype := NpDType.datetime64ns, shape := [1], data := NpData.nums [0] }) =
      Except.ok { dtype := TDType.tfloat32, shape := [1], data := [0], device := "cpu" }
    ∧ coerceInput none none "x"
        (PyVal.ndarray "numpy.ndarray"
          { dtype := NpDType.datetime64ns, shape := [1], data := NpData.nums [90000000000] }) =
      Except.ok { dtype := TDType.tfloat32, shape := [1], data := [90], device := "cpu" } := by
  constructor
  · rw [datetime_true_division none "x" [1] [0]]
    norm_num
  · rw [datetime_true_division none "x" [1] [90000000000]]
    norm_num

theorem lookupEach_ok_get {m : VarMap} {names : List String} {vs : List Val}
    (h : lookupEach m names = Except.ok vs) :
    ∀ j r, names.get? j = some r → ∃ v, dget m r = some v ∧ vs.get? j = some v := by
  induction names generalizing vs with
  | nil =>
    intro j r hr
    simp at hr
  | cons a rest ih =>
    intro j r hr
    cases ha : dget m a with
    | none => simp [lookupEach, ha] at h
    | some v =>
      simp only [lookupEach, ha] at h
      cases hrest : lookupEach m rest with
      | error e =>
        rw [hrest] at h
        simp [Except.map] at h
      | ok vs' =>
        rw [hrest] at h
        simp only [Except.map, Except.ok.injEq] at h
        subst h
        cases j with
        | zero =>
          simp only [List.get?] at hr
          cases hr
          exact ⟨v, ha, rfl⟩
        | succ j =>
          simp only [List.get?] at hr ⊢
          exact ih hrest j r hr

/-- C7: when the operator loop finishes with final symbol table `m`: a single
resolved output name returns its bound value directly; two or more resolved
output names return the ordered tuple whose element `j` is the value bound to
the `j`-th resolved output name, irrespective of how the bindings entered `m`. -/
theorem output_assembly (e : Executor) (ins : List PyVal) (m : VarMap)
    (h : forwardFinalMap e ins = Except.ok m) :
    (∀ o v, e._output_names = [o] → dget m o = some v →
      forward e ins = Except.ok (Output.single v))
    ∧ (∀ vs, 2 ≤ e._output_names.length → lookupEach m e._output_names = Except.ok vs →
        forward e ins = Except.ok (Output.tup vs)
        ∧ ∀ j r, e._output_names.get? j = some r → vs.get? j = dget m r) := by
  constructor
  · intro o v ho hv
    unfold forward
    rw [h, ho]
    simp [assembleOutput, hv]
  · intro vs h2 hlk
    constructor
    · unfold forward
      rw [h]
      cases hns : e._output_names with
      | nil => rw [hns] at h2; simp at h2
      | cons a rest =>
        cases rest with
        | nil => rw [hns] at h2; simp at h2
        | cons b rest' =>
          rw [hns] at hlk
          simp [assembleOutput, hlk, Except.map]
    · intro j r hj
      obtain ⟨v, hv, hg⟩ := lookupEach_ok_get hlk j r hj
      rw [hv, hg]

/-- A fixture for C7: one operator produces raw outputs in order
`["o1", "o2"]` while the executor's resolved output order is `["o2", "o1"]`. -/
def exTwoOut : Executor :=
  { _input_names := ["x"], _output_names := ["o2", "o1"],
    _operators :=
      [{ inputs := ["x"]
         outputs := ["o1", "o2"]
         transform := fun _ => Val.vtuple
           [{ dtype := TDType.tfloat32, shape := [1], data := [10], device := "cpu" },
            { dtype := TDType.tfloat32, shape := [1], data := [20], device := "cpu" }] }],
    max_string_length := none, check_dataframe_to_array := false, device := none }

/-- Witness for C7: the returned tuple follows the resolved output order
`["o2", "o1"]`, not the operator's production order `["o1", "o2"]`. -/
theorem output_assembly_witness :
    forward exTwoOut
        [PyVal.tensor "torch.Tensor" { dtype := TDType.tfloat32, shape := [1], data := [1], device := "cpu" }] =
      Except.ok (Output.tup
        [Val.tensor { dtype := TDType.tfloat32, shape := [1], data := [20], device := "cpu" },
         Val.tensor { dtype := TDType.tfloat32, shape := [1], data := [10], device := "cpu" }]) := by
  exact ((output_assembly exTwoOut
    [PyVal.tensor "torch.Tensor" { dtype := TDType.tfloat32, shape := [1], data := [1], device := "cpu" }]
    [("x", Val.tensor { dtype := TDType.tfloat32, shape := [1], data := [1], device := "cpu" }),
     ("o1", Val.tensor { dtype := TDType.tfloat32, shape := [1], data := [10], device := "cpu" }),
     ("o2", Val.tensor { dtype := TDType.tfloat32, shape := [1], data := [20], device := "cpu" })]
    rfl).2
    [Val.tensor { dtype := TDType.tfloat32, shape := [1], data := [20], device := "cpu" },
     Val.tensor { dtype := TDType.tfloat32, shape := [1], data := [10], device := "cpu" }]
    (by decide) rfl).1

/-- C8: a double-precision float array input yields a single-precision bound
tensor, and a single-precision float array input keeps single precision
(its element width is unchanged), whatever the device configuration. -/
theorem precision_law (msl : Option Nat) (dev : Option Device) (name : String)
    (arr : NpArray) (t : Tensor) :
    (arr.dtype = NpDType.float64 →
      coerceInput msl dev name (PyVal.ndarray "numpy.ndarray" arr) = Except.ok t →
      t.dtype = TDType.tfloat32)
    ∧ (arr.dtype = NpDType.float32 →
      coerceInput msl dev name (PyVal.ndarray "numpy.ndarray" arr) = Except.ok t →
      t.dtype = TDType.tfloat32) := by
  obtain ⟨d, sh, data⟩ := arr
  constructor
  · intro hd hc
    subst hd
    unfold coerceInput classifyToTensor listCoerce coerceNdarray at hc
    simp only [NpDType.kind, SUPPORTED_STRING_TYPES, torch_from_numpy, torchDTypeOf,
      Tensor.float, Except.map, Tensor.to] at hc
    cases dev with
    | none =>
      simp at hc
      rw [← hc]
    | some dv =>
      by_cases hdv : dv.type = "cpu"
      · simp [hdv] at hc
        rw [← hc]
      · simp [hdv] at hc
        rw [← hc]
  · intro hd hc
    subst hd
    unfold coerceInput classifyToTensor listCoerce coerceNdarray at hc
    simp only [NpDType.kind, SUPPORTED_STRING_TYPES, torch_from_numpy, torchDTypeOf,
      Tensor.float, Except.map, Tensor.to] at hc
    cases dev with
    | none =>
      simp at hc
      rw [← hc]
    | some dv =>
      by_cases hdv : dv.type = "cpu"
      · simp [hdv] at hc
        rw [← hc]
      · simp [hdv] at hc
        rw [← hc]

/-- Witness for C8 at concrete arrays: float64 data is downcast to float32,
float32 data stays float32. -/
theorem precision_law_witness :
    Tensor.dtype { dtype := TDType.tfloat32, shape := [2], data := [1, 2], device := "cpu" } =
      TDType.tfloat32
    ∧ Tensor.dtype { dtype := TDType.tfloat32, shape := [2], data := [5, 6], device := "cpu" } =
      TDType.tfloat32 := by
  constructor
  · exact (precision_law none none "x"
      { dtype := NpDType.float64, shape := [2], data := NpData.nums [1, 2] }
      { dtype := TDType.tfloat32, shape := [2], data := [1, 2], device := "cpu" }).1 rfl rfl
  · exact (precision_law none none "x"
      { dtype := NpDType.float32, shape := [2], data := NpData.nums [5, 6] }
      { dtype := TDType.tfloat32, shape := [2], data := [5, 6], device := "cpu" }).2 rfl rfl

/-- C9: the embedded `forward` is a pure function of the executor and the
supplied inputs — each call builds its own fresh symbol table and, with
operator transforms modelled as pure functions, two independent calls on the
same executor and inputs produce identical outputs. -/
theorem forward_deterministic (e : Executor) (ins : List PyVal)
    (o₁ o₂ : Except ExecError Output)
    (h₁ : forward e ins = o₁) (h₂ : forward e ins = o₂) : o₁ = o₂ := by
  rw [← h₁, ← h₂]

/-- Witness for C9: two evaluations of the same call on `exId` agree on the
concrete output. -/
theorem forward_deterministic_witness :
    forward exId
        [PyVal.ndarray "numpy.ndarray" { dtype := NpDType.float64, shape := [2], data := NpData.nums [1, 2] }] =
      Except.ok (Output.single
        (Val.tensor { dtype := TDType.tfloat32, shape := [2], data := [1, 2], device := "cpu" })) := by
  exact forward_deterministic exId
    [PyVal.ndarray "numpy.ndarray" { dtype := NpDType.float64, shape := [2], data := NpData.nums [1, 2] }]
    (forward exId
      [PyVal.ndarray "numpy.ndarray" { dtype := NpDType.float64, shape := [2], data := NpData.nums [1, 2] }])
    (Except.ok (Output.single
      (Val.tensor { dtype := TDType.tfloat32, shape := [2], data := [1, 2], device := "cpu" })))
    rfl rfl

/-- C10: input classification tests exact runtime type identity, not
instance-of: a proper subclass of `list` is not coerced to an array, a proper
subclass of `ndarray` is not treated as an array, a `tuple` is never coerced,
and a proper subclass of the tensor type is rejected — each raises the
unsupported-type error naming the input and its runtime type. -/
theorem exact_type_classification (msl : Option Nat) (dev : Option Device) (name : String) :
    (∀ ty elems, ty ≠ "list" →
      coerceInput msl dev name (PyVal.pylist ty elems) =
        Except.error (ExecError.unsupportedType name ty))
    ∧ (∀ ty arr, ty ≠ "numpy.ndarray" →
      coerceInput msl dev name (PyVal.ndarray ty arr) =
        Except.error (ExecError.unsupportedType name ty))
    ∧ (∀ elems, coerceInput msl dev name (PyVal.pytuple elems) =
        Except.error (ExecError.unsupportedType name "tuple"))
    ∧ (∀ ty t, ty ≠ "torch.Tensor" →
      coerceInput msl dev name (PyVal.tensor ty t) =
        Except.error (ExecError.unsupportedType name ty)) := by
  refine ⟨?_, ?_, ?_, ?_⟩
  · intro ty elems hty
    simp [coerceInput, classifyToTensor, listCoerce, hty]
  · intro ty arr hty
    simp [coerceInput, classifyToTensor, listCoerce, hty]
  · intro elems
    simp [coerceInput, classifyToTensor, listCoerce]
  · intro ty t hty
    simp [coerceInput, classifyToTensor, listCoerce, hty]

/-- Witness for C10 at concrete subclass names: `MyList`, `MaskedArray`,
a tuple, and `torch.nn.Parameter` (a tensor subclass) are all rejected with
the unsupported-type error naming the input and the runtime type. -/
theorem exact_type_classification_witness :
    coerceInput none none "x" (PyVal.pylist "MyList" [PyScalar.pint 1]) =
      Except.error (ExecError.unsupportedType "x" "MyList")
    ∧ coerceInput none none "x"
        (PyVal.ndarray "numpy.ma.MaskedArray" { dtype := NpDType.float64, shape := [1], data := NpData.nums [1] }) =
      Except.error (ExecError.unsupportedType "x" "numpy.ma.MaskedArray")
    ∧ coerceInput none none "x" (PyVal.pytuple [PyScalar.pint 1]) =
      Except.error (ExecError.unsupportedType "x" "tuple")
    ∧ coerceInput none none "x"
        (PyVal.tensor "torch.nn.Parameter" { dtype := TDType.tfloat32, shape := [1], data := [1], device := "cpu" }) =
      Except.error (ExecError.unsupportedType "x" "torch.nn.Parameter") := by
  refine ⟨?_, ?_, ?_, ?_⟩
  · exact (exact_type_classification none none "x").1 "MyList" [PyScalar.pint 1] (by decide)
  · exact (exact_type_classification none none "x").2.1 "numpy.ma.MaskedArray"
      { dtype := NpDType.float64, shape := [1], data := NpData.nums [1] } (by decide)
  · exact (exact_type_classification none none "x").2.2.1 [PyScalar.pint 1]
  · exact (exact_type_classification none none "x").2.2.2 "torch.nn.Parameter"
      { dtype := TDType.tfloat32, shape := [1], data := [1], device := "cpu" } (by decide)

end Hummingbird
